import Mathlib

/-!
Shallow embedding of `src/iface/socket_set.rs` from the smoltcp fork:
the socket registry (`SocketSet`), its handles, its storage slots, the
panicking accessors `get` / `get_mut` / `remove`, the non-panicking
accessors `try_get` / `try_get_mut` / `try_remove`, the iterators, and
the error type `SocketSetError`.

Rust machine state is modelled functionally: a `SocketSet` is a backend
tag (borrowed slice vs. owned vector, mirroring `ManagedSlice`) together
with the list of slots.  Operations that mutate the set return the new
set; operations that can panic are total functions into `Option`, with
`none` as the panic branch; the `try_` operations return `Except` over
the source's `SocketSetError`.
-/

namespace SocketSetModel

/-- A handle, identifying a socket in an Interface (`SocketHandle(usize)`,
source line 30). -/
structure SocketHandle where
  idx : Nat
deriving DecidableEq, Repr

/-- Modelled from the spec: `Meta` lives in `socket_meta.rs`, which is not
part of the given sources; per the spec's data model an Item's metadata is
currently just the owning handle. -/
structure Meta where
  handle : SocketHandle
deriving DecidableEq, Repr

/-- Rust's `Meta::default()`: the handle field defaults to index 0. -/
def Meta.deflt : Meta := ⟨⟨0⟩⟩

/-- Modelled from the spec: the closed set of socket variant kinds of the
tagged union `Socket<'a>` (defined in the `socket` module, not part of the
given sources). -/
inductive SocketKind
  | tcp
  | udp
  | icmp
  | raw
  | dhcp
deriving DecidableEq, Repr

/-- Modelled from the spec: the uniform stored form of a socket — a variant
tag plus an opaque protocol payload (we model the payload as a `Nat`; the
registry never inspects it). -/
structure Socket where
  kind : SocketKind
  payload : Nat
deriving DecidableEq, Repr

/-- Modelled from the spec: `AnySocket::upcast` consumes a concrete socket
and produces the stored form.  In the model a concrete socket of type `T`
is a `Socket` whose tag is `T`, so upcast is the identity injection. -/
def upcast (s : Socket) : Socket := s

/-- Modelled from the spec: `AnySocket::downcast` — given the stored form
and a requested concrete type (variant tag), return the occupant if the
tags match, otherwise signal failure. -/
def downcast (T : SocketKind) (s : Socket) : Option Socket :=
  if s.kind = T then some s else none

/-- Modelled from the spec: `AnySocket::downcast_mut`, the mutable borrow
variant; resolution is identical to `downcast`. -/
def downcastMut (T : SocketKind) (s : Socket) : Option Socket :=
  if s.kind = T then some s else none

/-- An item of a socket set (source lines 22-25). -/
structure Item where
  meta : Meta
  socket : Socket
deriving DecidableEq, Repr

/-- Opaque struct with space for storing one socket (source lines 12-14). -/
structure SocketStorage where
  inner : Option Item
deriving DecidableEq, Repr

/-- `SocketStorage::EMPTY` (source line 17). -/
def SocketStorage.EMPTY : SocketStorage := ⟨none⟩

/-- The two forms of `ManagedSlice`: a caller-owned fixed slice
(`Borrowed`) or a growable vector (`Owned`). -/
inductive BackendKind
  | borrowed
  | owned
deriving DecidableEq, Repr

/-- An extensible set of sockets (source lines 44-46): the `ManagedSlice`
backend, modelled as its kind tag plus the list of slots. -/
structure SocketSet where
  backend : BackendKind
  sockets : List SocketStorage
deriving DecidableEq, Repr

/-- `SocketSet::new` over a caller-provided fixed buffer of length `n`:
`SocketStorage` has no public constructor besides `EMPTY` / `Default`, so
caller storage starts with every slot vacant. -/
def initFixed (n : Nat) : SocketSet :=
  ⟨.borrowed, List.replicate n SocketStorage.EMPTY⟩

/-- `SocketSet::new` over a growable vector backend, which starts empty. -/
def initGrowable : SocketSet :=
  ⟨.owned, []⟩

/-- The error type of the non-panicking API (source lines 153-161):
out-of-bounds index, vacant slot, or wrong occupant type.  There is no
`Full` variant. -/
inductive SocketSetError
  | outOfBounds
  | vacant
  | wrongType
deriving DecidableEq, Repr

/-- The occupant (if any) of slot `i`: `self.sockets.get(i)` followed by
`.inner`. -/
def slotInner (s : SocketSet) (i : Nat) : Option Item :=
  (s.sockets[i]?).bind (·.inner)

/-- The inner helper `put` of `SocketSet::add` (source lines 63-72): build
the handle from the index, record it in fresh metadata, occupy the slot,
return the handle together with the new slot contents. -/
def put (index : Nat) (socket : Socket) : SocketStorage × SocketHandle :=
  let handle := SocketHandle.mk index
  let meta := { Meta.deflt with handle := handle }
  (⟨some ⟨meta, socket⟩⟩, handle)

/-- The scan loop of `SocketSet::add` (source lines 76-80): the index of
the first slot whose `inner` is `None`, if any. -/
def findVacant : List SocketStorage → Option Nat
  | [] => none
  | slot :: rest =>
    if slot.inner.isNone then some 0
    else (findVacant rest).map (· + 1)

/-- `SocketSet::add` (source lines 62-91): upcast, fill the first vacant
slot; otherwise panic for a borrowed backend (`none`), or push one empty
slot and fill it for an owned backend. -/
def add (s : SocketSet) (socket : Socket) : Option (SocketSet × SocketHandle) :=
  let socket := upcast socket
  match findVacant s.sockets with
  | some index =>
    let r := put index socket
    some ({ s with sockets := s.sockets.set index r.1 }, r.2)
  | none =>
    match s.backend with
    | .borrowed => none
    | .owned =>
      let sockets := s.sockets ++ [SocketStorage.EMPTY]
      let index := sockets.length - 1
      let r := put index socket
      some ({ s with sockets := sockets.set index r.1 }, r.2)

/-- `SocketSet::get` (source lines 98-105), total model: `none` is the
panic branch (out-of-bounds indexing, vacant slot, or failed downcast). -/
def get (s : SocketSet) (T : SocketKind) (handle : SocketHandle) : Option Socket :=
  match s.sockets[handle.idx]? with
  | none => none
  | some entry =>
    match entry.inner with
    | none => none
    | some item => downcast T item.socket

/-- `SocketSet::get_mut` (source lines 112-118), total model, analogous to
`get` with `downcast_mut`.  Borrowing mutably does not by itself change
the set. -/
def getMut (s : SocketSet) (T : SocketKind) (handle : SocketHandle) : Option Socket :=
  match s.sockets[handle.idx]? with
  | none => none
  | some entry =>
    match entry.inner with
    | none => none
    | some item => downcastMut T item.socket

/-- `SocketSet::remove` (source lines 124-130), total model: on success
return the detached socket and the set with that slot vacated; `none` is
the panic branch. -/
def remove (s : SocketSet) (handle : SocketHandle) : Option (Socket × SocketSet) :=
  match s.sockets[handle.idx]? with
  | none => none
  | some entry =>
    match entry.inner with
    | none => none
    | some item =>
      some (item.socket, { s with sockets := s.sockets.set handle.idx ⟨none⟩ })

/-- `SocketSet::try_get` (source lines 178-187): bounds check
(`OutOfBounds`), occupancy check (`Vacant`), downcast (`WrongType`). -/
def tryGet (s : SocketSet) (T : SocketKind) (handle : SocketHandle) :
    Except SocketSetError Socket :=
  match s.sockets[handle.idx]? with
  | none => .error .outOfBounds
  | some entry =>
    match entry.inner with
    | none => .error .vacant
    | some item =>
      match downcast T item.socket with
      | none => .error .wrongType
      | some v => .ok v

/-- `SocketSet::try_get_mut` (source lines 190-202): same chain with
`downcast_mut`. -/
def tryGetMut (s : SocketSet) (T : SocketKind) (handle : SocketHandle) :
    Except SocketSetError Socket :=
  match s.sockets[handle.idx]? with
  | none => .error .outOfBounds
  | some entry =>
    match entry.inner with
    | none => .error .vacant
    | some item =>
      match downcastMut T item.socket with
      | none => .error .wrongType
      | some v => .ok v

/-- `SocketSet::try_remove` (source lines 205-215): bounds check, then
`inner.take()` — detach the occupant, leaving the slot vacant. -/
def tryRemove (s : SocketSet) (handle : SocketHandle) :
    Except SocketSetError (Socket × SocketSet) :=
  match s.sockets[handle.idx]? with
  | none => .error .outOfBounds
  | some entry =>
    match entry.inner with
    | none => .error .vacant
    | some item =>
      .ok (item.socket, { s with sockets := s.sockets.set handle.idx ⟨none⟩ })

/-- `SocketSet::items` (source lines 143-145): every occupied slot's item,
in slot order. -/
def items (s : SocketSet) : List Item :=
  s.sockets.filterMap (·.inner)

/-- `SocketSet::iter` (source lines 133-135): `(meta.handle, socket)` for
each item. -/
def iter (s : SocketSet) : List (SocketHandle × Socket) :=
  (items s).map (fun i => (i.meta.handle, i.socket))

/-- `SocketSet::iter_mut` (source lines 138-140): the same pairs as
`iter`, yielded mutably. -/
def iterMut (s : SocketSet) : List (SocketHandle × Socket) :=
  (items s).map (fun i => (i.meta.handle, i.socket))

/-- Derived `PartialEq` on `SocketHandle`: field-wise equality of the
wrapped index. -/
def socketHandleBeq (a b : SocketHandle) : Bool :=
  a.idx == b.idx

/-- Derived `Ord`/`PartialOrd` on `SocketHandle`: comparison of the
wrapped index. -/
def socketHandleLe (a b : SocketHandle) : Bool :=
  decide (a.idx ≤ b.idx)

/-- `Display for SocketHandle` (source lines 32-36): `"#"` followed by the
decimal rendering of the index. -/
def socketHandleDisplay (h : SocketHandle) : String :=
  "#" ++ Nat.repr h.idx

/-! ### Derived notions used to state the claims -/

/-- Number of vacant slots. -/
def countVacant (l : List SocketStorage) : Nat :=
  (l.filter (fun slot => slot.inner.isNone)).length

/-- Number of occupied slots. -/
def countOccupied (l : List SocketStorage) : Nat :=
  (l.filterMap (·.inner)).length

/-- The occupied slots of a slot list, each paired with its index, in
ascending index order: the view of the storage that iteration is supposed
to produce. -/
def occList : List SocketStorage → List (Nat × Item)
  | [] => []
  | x :: xs =>
    match x.inner with
    | some it => (0, it) :: (occList xs).map (fun p => (p.1 + 1, p.2))
    | none => (occList xs).map (fun p => (p.1 + 1, p.2))

/-- Mutation of one socket's protocol payload in place, as enabled by the
`&mut T` that `get_mut` / `try_get_mut` hand out: the payload may change
but the slot's occupancy, its metadata and the occupant's variant tag
cannot (the borrow points inside the stored variant). -/
def mutatePayload (s : SocketSet) (handle : SocketHandle) (p : Nat) : SocketSet :=
  match slotInner s handle.idx with
  | none => s
  | some item =>
    { s with sockets := s.sockets.set handle.idx ⟨some ⟨item.meta, ⟨item.socket.kind, p⟩⟩⟩ }

/-- The state-affecting operations of the registry, used to describe the
reachable states of one registry instance.  Lookups (`get`, `try_get`,
`iter`) do not modify the set; mutation through a `get_mut` borrow is
`mutateOp`.  A panicking call aborts the process, so it reaches no new
state; an erroring `try_` call leaves the set unchanged. -/
inductive Op
  | addOp (socket : Socket)
  | removeOp (handle : SocketHandle)
  | tryRemoveOp (handle : SocketHandle)
  | mutateOp (handle : SocketHandle) (payload : Nat)

/-- One step of a registry trace: apply the operation and record any
handle `add` returned. -/
def step (p : SocketSet × List SocketHandle) (op : Op) : SocketSet × List SocketHandle :=
  match op with
  | .addOp sock =>
    match add p.1 sock with
    | some (s', h) => (s', p.2 ++ [h])
    | none => p
  | .removeOp h =>
    match remove p.1 h with
    | some (_, s') => (s', p.2)
    | none => p
  | .tryRemoveOp h =>
    match tryRemove p.1 h with
    | .ok (_, s') => (s', p.2)
    | .error _ => p
  | .mutateOp h pay => (mutatePayload p.1 h pay, p.2)

/-- Run a trace of operations from an initial set, collecting every handle
returned by `add`. -/
def run (init : SocketSet) (ops : List Op) : SocketSet × List SocketHandle :=
  ops.foldl step (init, [])

/-- A legitimate initial state: `new` over caller-provided fixed storage
(all slots vacant) or over an empty growable vector. -/
def ValidInit (s : SocketSet) : Prop :=
  (∃ n, s = initFixed n) ∨ s = initGrowable

/-! ### Lemmas about `findVacant` -/

theorem findVacant_eq_none_iff (l : List SocketStorage) :
    findVacant l = none ↔ ∀ slot ∈ l, slot.inner.isSome := by
  induction l with
  | nil => simp [findVacant]
  | cons slot rest ih =>
    by_cases h : slot.inner.isNone
    · simp only [findVacant, h, if_pos]
      constructor
      · intro h'
        exact absurd h' (by simp)
      · intro h'
        have := h' slot (by simp)
        rw [Option.isNone_iff_eq_none.mp h] at this
        simp at this
    · simp only [findVacant, h, if_neg, Bool.false_eq_true, not_false_iff, Option.map_eq_none, Option.map_eq_none']
      rw [ih]
      constructor
      · intro h' s hs
        rcases List.mem_cons.mp hs with rfl | hs'
        · exact Option.ne_none_iff_isSome.mp (by simpa using h)
        · exact h' s hs'
      · intro h' s hs
        exact h' s (List.mem_cons_of_mem _ hs)

theorem findVacant_lt (l : List SocketStorage) (j : Nat) (h : findVacant l = some j) :
    j < l.length := by
  induction l generalizing j with
  | nil => simp [findVacant] at h
  | cons slot rest ih =>
    by_cases hv : slot.inner.isNone
    · simp only [findVacant, hv, if_pos, Option.some_inj] at h
      simp only [List.length_cons]
      omega
    · simp only [findVacant, hv, Bool.false_eq_true, if_neg, not_false_iff,
        Option.map_eq_some, Option.map_eq_some'] at h
      obtain ⟨j', hj', rfl⟩ := h
      have := ih j' hj'
      simp only [List.length_cons]
      omega

theorem findVacant_vacant (l : List SocketStorage) (j : Nat) (h : findVacant l = some j) :
    ∃ slot, l[j]? = some slot ∧ slot.inner = none := by
  induction l generalizing j with
  | nil => simp [findVacant] at h
  | cons slot rest ih =>
    by_cases hv : slot.inner.isNone
    · simp only [findVacant, hv, if_pos, Option.some_inj] at h
      subst h
      exact ⟨slot, by simp, Option.isNone_iff_eq_none.mp hv⟩
    · simp only [findVacant, hv, Bool.false_eq_true, if_neg, not_false_iff,
        Option.map_eq_some, Option.map_eq_some'] at h
      obtain ⟨j', hj', rfl⟩ := h
      simpa using ih j' hj'

theorem findVacant_min (l : List SocketStorage) (j : Nat) (h : findVacant l = some j) :
    ∀ k, k < j → ∃ slot, l[k]? = some slot ∧ slot.inner.isSome := by
  induction l generalizing j with
  | nil => simp [findVacant] at h
  | cons slot rest ih =>
    by_cases hv : slot.inner.isNone
    · simp only [findVacant, hv, if_pos, Option.some_inj] at h
      omega
    · simp only [findVacant, hv, Bool.false_eq_true, if_neg, not_false_iff,
        Option.map_eq_some, Option.map_eq_some'] at h
      obtain ⟨j', hj', rfl⟩ := h
      intro k hk
      match k with
      | 0 =>
        exact ⟨slot, by simp, Option.ne_none_iff_isSome.mp (by simpa using hv)⟩
      | k' + 1 =>
        simpa using ih j' hj' k' (by omega)

/-! ### Lemmas about `add` -/

theorem set_append_last (l : List SocketStorage) (a b : SocketStorage) :
    (l ++ [a]).set l.length b = l ++ [b] := by
  induction l with
  | nil => rfl
  | cons x xs ih => simp [ih]

theorem add_eq_of_findVacant_some (s : SocketSet) (sock : Socket) (j : Nat)
    (h : findVacant s.sockets = some j) :
    add s sock = some ({ s with sockets := s.sockets.set j ⟨some ⟨⟨⟨j⟩⟩, sock⟩⟩ }, ⟨j⟩) := by
  simp [add, h, put, upcast, Meta.deflt]

theorem add_eq_none_iff (s : SocketSet) (sock : Socket) :
    add s sock = none ↔ findVacant s.sockets = none ∧ s.backend = .borrowed := by
  cases hf : findVacant s.sockets with
  | some j => simp [add_eq_of_findVacant_some s sock j hf]
  | none => cases hb : s.backend <;> simp [add, hf, hb]

theorem add_eq_of_full_owned (s : SocketSet) (sock : Socket)
    (hf : findVacant s.sockets = none) (hb : s.backend = .owned) :
    add s sock =
      some ({ s with sockets := s.sockets ++ [⟨some ⟨⟨⟨s.sockets.length⟩⟩, sock⟩⟩] },
        ⟨s.sockets.length⟩) := by
  have hlen : (s.sockets ++ [SocketStorage.EMPTY]).length - 1 = s.sockets.length := by
    simp
  simp only [add, hf, hb, put, upcast, Meta.deflt, hlen]
  rw [set_append_last]

/-- Unified slot-level description of a successful `add`: the returned
handle's slot was vacant before, holds the new socket (with the handle in
its metadata) after, and every other slot is untouched. -/
theorem add_slot (s : SocketSet) (sock : Socket) (s' : SocketSet) (h : SocketHandle)
    (hadd : add s sock = some (s', h)) :
    slotInner s h.idx = none ∧
    slotInner s' h.idx = some ⟨⟨h⟩, sock⟩ ∧
    (∀ i, i ≠ h.idx → slotInner s' i = slotInner s i) ∧
    s'.backend = s.backend ∧
    s.sockets.length ≤ s'.sockets.length ∧
    h.idx < s'.sockets.length := by
  cases hf : findVacant s.sockets with
  | some j =>
    rw [add_eq_of_findVacant_some s sock j hf] at hadd
    obtain ⟨hs', hh⟩ := Prod.ext_iff.mp (Option.some_inj.mp hadd)
    dsimp only at hs' hh
    subst hs'
    subst hh
    have hjlt : j < s.sockets.length := findVacant_lt _ _ hf
    obtain ⟨slot, hslot, hvac⟩ := findVacant_vacant _ _ hf
    refine ⟨?_, ?_, ?_, rfl, by simp, by simpa using hjlt⟩
    · simp [slotInner, hslot, hvac]
    · simp [slotInner, List.getElem?_set_self (a := (⟨some ⟨⟨⟨j⟩⟩, sock⟩⟩ : SocketStorage)) hjlt]
    · intro i hi
      simp [slotInner, List.getElem?_set_ne (Ne.symm hi)]
  | none =>
    cases hb : s.backend with
    | borrowed =>
      rw [(add_eq_none_iff s sock).mpr ⟨hf, hb⟩] at hadd
      exact absurd hadd (by simp)
    | owned =>
      rw [add_eq_of_full_owned s sock hf hb] at hadd
      obtain ⟨hs', hh⟩ := Prod.ext_iff.mp (Option.some_inj.mp hadd)
      dsimp only at hs' hh
      subst hs'
      subst hh
      refine ⟨?_, ?_, ?_, by simp [hb], by simp, by simp⟩
      · simp [slotInner]
      · simp [slotInner, List.getElem?_concat_length]
      · intro i hi
        rcases Nat.lt_or_ge i s.sockets.length with hlt | hge
        · simp [slotInner, List.getElem?_append_left hlt]
        · have hgt : s.sockets.length < i := by
            rcases Nat.eq_or_lt_of_le hge with rfl | hlt'
            · exact absurd rfl hi
            · exact hlt'
          have h1 : (s.sockets ++ [(⟨some ⟨⟨⟨s.sockets.length⟩⟩, sock⟩⟩ : SocketStorage)])[i]? =
              none := by
            rw [List.getElem?_eq_none_iff]
            simpa using hgt
          have h2 : s.sockets[i]? = none := by
            rw [List.getElem?_eq_none_iff]
            omega
          simp [slotInner, h1, h2]

/-! ### Counting vacant and occupied slots -/

theorem countVacant_cons (x : SocketStorage) (xs : List SocketStorage) :
    countVacant (x :: xs) = (if x.inner.isNone then 1 else 0) + countVacant xs := by
  by_cases h : x.inner.isNone <;> simp [countVacant, List.filter_cons, h] <;> omega

theorem countOccupied_cons (x : SocketStorage) (xs : List SocketStorage) :
    countOccupied (x :: xs) = (if x.inner.isSome then 1 else 0) + countOccupied xs := by
  cases h : x.inner <;> simp [countOccupied, List.filterMap_cons, h] <;> omega

theorem countVacant_set_fill (l : List SocketStorage) (j : Nat) (slot : SocketStorage)
    (hj : l[j]? = some slot) (hv : slot.inner = none) (it : Item) :
    countVacant (l.set j ⟨some it⟩) + 1 = countVacant l := by
  induction l generalizing j with
  | nil => simp at hj
  | cons x xs ih =>
    match j with
    | 0 =>
      simp only [List.getElem?_cons_zero, Option.some_inj] at hj
      subst hj
      simp [List.set_cons_zero, countVacant_cons, hv]
      omega
    | j + 1 =>
      simp only [List.getElem?_cons_succ] at hj
      have := ih j hj
      simp only [List.set_cons_succ, countVacant_cons]
      omega

theorem countOccupied_set_vacate (l : List SocketStorage) (j : Nat) (slot : SocketStorage)
    (hj : l[j]? = some slot) (it : Item) (hv : slot.inner = some it) :
    countOccupied (l.set j ⟨none⟩) + 1 = countOccupied l := by
  induction l generalizing j with
  | nil => simp at hj
  | cons x xs ih =>
    match j with
    | 0 =>
      simp only [List.getElem?_cons_zero, Option.some_inj] at hj
      subst hj
      simp [List.set_cons_zero, countOccupied_cons, hv]
      omega
    | j + 1 =>
      simp only [List.getElem?_cons_succ] at hj
      have := ih j hj
      simp only [List.set_cons_succ, countOccupied_cons]
      omega

theorem countVacant_eq_zero_iff (l : List SocketStorage) :
    countVacant l = 0 ↔ findVacant l = none := by
  rw [findVacant_eq_none_iff, countVacant, List.length_eq_zero, List.filter_eq_nil_iff]
  constructor
  · intro h slot hs
    have := h slot hs
    cases hi : slot.inner with
    | none => rw [hi] at this; simp at this
    | some it => simp [hi]
  · intro h slot hs
    have := h slot hs
    cases hi : slot.inner with
    | none => rw [hi] at this; simp at this
    | some it => simp [hi]

theorem countVacant_initFixed (n : Nat) : countVacant (initFixed n).sockets = n := by
  induction n with
  | zero => rfl
  | succ k ih =>
    simp only [initFixed, List.replicate_succ, countVacant_cons] at *
    simp [SocketStorage.EMPTY] at *
    omega

/-! ### Characterizations of the lookup chain -/

theorem tryGet_eq (s : SocketSet) (T : SocketKind) (h : SocketHandle) :
    tryGet s T h =
      if s.sockets.length ≤ h.idx then .error .outOfBounds
      else
        match slotInner s h.idx with
        | none => .error .vacant
        | some item =>
          if item.socket.kind = T then .ok item.socket else .error .wrongType := by
  rcases Nat.lt_or_ge h.idx s.sockets.length with hlt | hge
  · rw [if_neg (by omega)]
    obtain ⟨entry, hentry⟩ : ∃ e, s.sockets[h.idx]? = some e :=
      ⟨_, List.getElem?_eq_getElem hlt⟩
    cases hi : entry.inner with
    | none => simp [tryGet, slotInner, hentry, hi]
    | some item =>
      by_cases hk : item.socket.kind = T <;>
        simp [tryGet, slotInner, hentry, hi, downcast, hk]
  · have hentry : s.sockets[h.idx]? = none := List.getElem?_eq_none_iff.mpr hge
    rw [if_pos hge]
    simp [tryGet, hentry]

theorem tryGetMut_eq (s : SocketSet) (T : SocketKind) (h : SocketHandle) :
    tryGetMut s T h = tryGet s T h := by
  simp [tryGet, tryGetMut, downcast, downcastMut]

theorem tryRemove_eq (s : SocketSet) (h : SocketHandle) :
    tryRemove s h =
      if s.sockets.length ≤ h.idx then .error .outOfBounds
      else
        match slotInner s h.idx with
        | none => .error .vacant
        | some item =>
          .ok (item.socket, { s with sockets := s.sockets.set h.idx ⟨none⟩ }) := by
  rcases Nat.lt_or_ge h.idx s.sockets.length with hlt | hge
  · rw [if_neg (by omega)]
    obtain ⟨entry, hentry⟩ : ∃ e, s.sockets[h.idx]? = some e :=
      ⟨_, List.getElem?_eq_getElem hlt⟩
    cases hi : entry.inner with
    | none => simp [tryRemove, slotInner, hentry, hi]
    | some item => simp [tryRemove, slotInner, hentry, hi]
  · have hentry : s.sockets[h.idx]? = none := List.getElem?_eq_none_iff.mpr hge
    rw [if_pos hge]
    simp [tryRemove, hentry]

/-- The panicking `get` is the `try_get` chain with the panic collapsed to
`none`. -/
theorem get_eq_toOption (s : SocketSet) (T : SocketKind) (h : SocketHandle) :
    get s T h = (tryGet s T h).toOption := by
  cases hentry : s.sockets[h.idx]? with
  | none => simp [get, tryGet, Except.toOption, hentry]
  | some entry =>
    cases hi : entry.inner with
    | none => simp [get, tryGet, Except.toOption, hentry, hi]
    | some item =>
      cases hd : downcast T item.socket <;> simp [get, tryGet, Except.toOption, hentry, hi, hd]

theorem getMut_eq_toOption (s : SocketSet) (T : SocketKind) (h : SocketHandle) :
    getMut s T h = (tryGetMut s T h).toOption := by
  cases hentry : s.sockets[h.idx]? with
  | none => simp [getMut, tryGetMut, Except.toOption, hentry]
  | some entry =>
    cases hi : entry.inner with
    | none => simp [getMut, tryGetMut, Except.toOption, hentry, hi]
    | some item =>
      cases hd : downcastMut T item.socket <;> simp [getMut, tryGetMut, Except.toOption, hentry, hi, hd]

theorem remove_eq_toOption (s : SocketSet) (h : SocketHandle) :
    remove s h = (tryRemove s h).toOption := by
  cases hentry : s.sockets[h.idx]? with
  | none => simp [remove, tryRemove, Except.toOption, hentry]
  | some entry =>
    cases hi : entry.inner <;> simp [remove, tryRemove, Except.toOption, hentry, hi]

/-! ### The occupied-slot view and iteration -/

theorem items_eq_occList (l : List SocketStorage) :
    l.filterMap (·.inner) = (occList l).map Prod.snd := by
  induction l with
  | nil => rfl
  | cons x xs ih =>
    cases hx : x.inner with
    | none => simp [occList, hx, List.filterMap_cons, ih, Function.comp]
    | some it => simp [occList, hx, List.filterMap_cons, ih, Function.comp]

theorem occList_pairwise (l : List SocketStorage) :
    (occList l).Pairwise (fun p q => p.1 < q.1) := by
  induction l with
  | nil => exact List.Pairwise.nil
  | cons x xs ih =>
    cases hx : x.inner with
    | none =>
      simp only [occList, hx]
      exact (List.pairwise_map.mpr (ih.imp (by intro a b hab; omega)))
    | some it =>
      simp only [occList, hx]
      refine List.Pairwise.cons ?_ (List.pairwise_map.mpr (ih.imp (by intro a b hab; omega)))
      intro q hq
      obtain ⟨p, _, rfl⟩ := List.mem_map.mp hq
      omega

theorem occList_mem_iff (l : List SocketStorage) (i : Nat) (it : Item) :
    (i, it) ∈ occList l ↔ (l[i]?).bind (·.inner) = some it := by
  induction l generalizing i with
  | nil => simp [occList]
  | cons x xs ih =>
    cases hx : x.inner with
    | none =>
      simp only [occList, hx, List.mem_map]
      constructor
      · rintro ⟨⟨j, it'⟩, hmem, heq⟩
        obtain ⟨h1, h2⟩ := Prod.ext_iff.mp heq
        dsimp only at h1 h2
        subst h1
        subst h2
        simpa using (ih j).mp hmem
      · intro hin
        match i with
        | 0 => simp [hx] at hin
        | j + 1 =>
          simp only [List.getElem?_cons_succ] at hin
          exact ⟨(j, it), (ih j).mpr hin, rfl⟩
    | some it0 =>
      simp only [occList, hx, List.mem_cons, List.mem_map]
      constructor
      · rintro (heq | ⟨⟨j, it'⟩, hmem, heq⟩)
        · obtain ⟨h1, h2⟩ := Prod.ext_iff.mp heq
          dsimp only at h1 h2
          subst h1
          subst h2
          simp [hx]
        · obtain ⟨h1, h2⟩ := Prod.ext_iff.mp heq
          dsimp only at h1 h2
          subst h1
          subst h2
          simpa using (ih j).mp hmem
      · intro hin
        match i with
        | 0 =>
          simp only [List.getElem?_cons_zero, Option.some_bind, hx, Option.some_inj] at hin
          exact Or.inl (by rw [hin])
        | j + 1 =>
          simp only [List.getElem?_cons_succ] at hin
          exact Or.inr ⟨(j, it), (ih j).mpr hin, rfl⟩

theorem iter_eq_occList (s : SocketSet) :
    iter s = (occList s.sockets).map (fun p => (p.2.meta.handle, p.2.socket)) := by
  simp [iter, items, items_eq_occList, Function.comp]

theorem iter_length (s : SocketSet) :
    (iter s).length = countOccupied s.sockets := by
  simp [iter, items, countOccupied]

/-! ### Slot-level views of removal and in-place mutation -/

theorem remove_eq_some_iff (s : SocketSet) (h : SocketHandle) (v : Socket) (s' : SocketSet) :
    remove s h = some (v, s') ↔ tryRemove s h = .ok (v, s') := by
  rw [remove_eq_toOption]
  cases htr : tryRemove s h with
  | error e => simp [Except.toOption]
  | ok p => simp [Except.toOption]

theorem tryRemove_slot (s : SocketSet) (h : SocketHandle) (v : Socket) (s' : SocketSet)
    (hrem : tryRemove s h = .ok (v, s')) :
    (∃ item, slotInner s h.idx = some item ∧ v = item.socket) ∧
    slotInner s' h.idx = none ∧
    (∀ i, i ≠ h.idx → slotInner s' i = slotInner s i) ∧
    s'.backend = s.backend ∧
    s'.sockets.length = s.sockets.length := by
  rw [tryRemove_eq] at hrem
  rcases Nat.lt_or_ge h.idx s.sockets.length with hlt | hge
  · rw [if_neg (by omega)] at hrem
    cases hit : slotInner s h.idx with
    | none => rw [hit] at hrem; exact absurd hrem (by simp)
    | some item =>
      rw [hit] at hrem
      simp only [Except.ok.injEq] at hrem
      obtain ⟨h1, h2⟩ := Prod.ext_iff.mp hrem
      dsimp only at h1 h2
      subst h1
      subst h2
      refine ⟨⟨item, rfl, rfl⟩, ?_, ?_, rfl, by simp⟩
      · simp [slotInner,
          List.getElem?_set_self (a := (⟨none⟩ : SocketStorage)) hlt]
      · intro i hi
        simp [slotInner, List.getElem?_set_ne (Ne.symm hi)]
  · rw [if_pos hge] at hrem
    exact absurd hrem (by simp)

theorem mutatePayload_slot (s : SocketSet) (h : SocketHandle) (p : Nat) :
    slotInner (mutatePayload s h p) h.idx =
      (slotInner s h.idx).map (fun item => ⟨item.meta, ⟨item.socket.kind, p⟩⟩) ∧
    (∀ i, i ≠ h.idx → slotInner (mutatePayload s h p) i = slotInner s i) ∧
    (mutatePayload s h p).backend = s.backend ∧
    (mutatePayload s h p).sockets.length = s.sockets.length := by
  cases hit : slotInner s h.idx with
  | none => simp [mutatePayload, hit]
  | some item =>
    have hlt : h.idx < s.sockets.length := by
      rcases hentry : s.sockets[h.idx]? with _ | entry
      · rw [slotInner, hentry] at hit; simp at hit
      · rcases List.getElem?_eq_some.mp hentry with ⟨hlt, _⟩
        exact hlt
    have hit' : (s.sockets[h.idx]?).bind (fun x => x.inner) = some item := hit
    refine ⟨?_, ?_, ?_, ?_⟩
    · simp [mutatePayload, hit', slotInner, List.getElem?_set_self
        (a := (⟨some ⟨item.meta, ⟨item.socket.kind, p⟩⟩⟩ : SocketStorage)) hlt]
    · intro i hi
      simp [mutatePayload, hit', slotInner, List.getElem?_set_ne (Ne.symm hi)]
    · simp [mutatePayload, hit', slotInner]
    · simp [mutatePayload, hit', slotInner]

/-! ### Trace invariants -/

/-- Every occupied slot's index corresponds to a handle that `add` has
returned on this registry instance. -/
def HandlesInv (s : SocketSet) (hs : List SocketHandle) : Prop :=
  ∀ i item, slotInner s i = some item → SocketHandle.mk i ∈ hs

/-- Every occupied slot stores its own handle in its metadata. -/
def MetaInv (s : SocketSet) : Prop :=
  ∀ i item, slotInner s i = some item → item.meta.handle = SocketHandle.mk i

theorem slotInner_initFixed (n i : Nat) : slotInner (initFixed n) i = none := by
  rcases Nat.lt_or_ge i n with hlt | hge
  · simp [slotInner, initFixed, List.getElem?_replicate_of_lt hlt, SocketStorage.EMPTY]
  · have : (List.replicate n SocketStorage.EMPTY)[i]? = none := by
      rw [List.getElem?_eq_none_iff]
      simpa using hge
    simp [slotInner, initFixed, this]

theorem slotInner_initGrowable (i : Nat) : slotInner initGrowable i = none := by
  simp [slotInner, initGrowable]

theorem step_handlesInv (p : SocketSet × List SocketHandle) (op : Op)
    (hinv : HandlesInv p.1 p.2) : HandlesInv (step p op).1 (step p op).2 := by
  cases op with
  | addOp sock =>
    cases hadd : add p.1 sock with
    | none => simpa [step, hadd] using hinv
    | some q =>
      obtain ⟨s', h⟩ := q
      obtain ⟨hvac, hnew, hother, _, _, _⟩ := add_slot p.1 sock s' h hadd
      simp only [step, hadd]
      intro i item hit
      by_cases hi : i = h.idx
      · subst hi
        simp
      · rw [hother i hi] at hit
        exact List.mem_append_left _ (hinv i item hit)
  | removeOp h =>
    cases hrm : remove p.1 h with
    | none => simpa [step, hrm] using hinv
    | some q =>
      obtain ⟨v, s'⟩ := q
      obtain ⟨_, hvac, hother, _, _⟩ :=
        tryRemove_slot p.1 h v s' ((remove_eq_some_iff p.1 h v s').mp hrm)
      simp only [step, hrm]
      intro i item hit
      by_cases hi : i = h.idx
      · subst hi
        rw [hvac] at hit
        exact absurd hit (by simp)
      · rw [hother i hi] at hit
        exact hinv i item hit
  | tryRemoveOp h =>
    cases hrm : tryRemove p.1 h with
    | error e => simpa [step, hrm] using hinv
    | ok q =>
      obtain ⟨v, s'⟩ := q
      obtain ⟨_, hvac, hother, _, _⟩ := tryRemove_slot p.1 h v s' hrm
      simp only [step, hrm]
      intro i item hit
      by_cases hi : i = h.idx
      · subst hi
        rw [hvac] at hit
        exact absurd hit (by simp)
      · rw [hother i hi] at hit
        exact hinv i item hit
  | mutateOp h pay =>
    obtain ⟨hself, hother, _, _⟩ := mutatePayload_slot p.1 h pay
    simp only [step]
    intro i item hit
    by_cases hi : i = h.idx
    · subst hi
      rw [hself] at hit
      cases hold : slotInner p.1 h.idx with
      | none => rw [hold] at hit; exact absurd hit (by simp)
      | some old => exact hinv h.idx old hold
    · rw [hother i hi] at hit
      exact hinv i item hit

theorem step_metaInv (p : SocketSet × List SocketHandle) (op : Op)
    (hinv : MetaInv p.1) : MetaInv (step p op).1 := by
  cases op with
  | addOp sock =>
    cases hadd : add p.1 sock with
    | none => simpa [step, hadd] using hinv
    | some q =>
      obtain ⟨s', h⟩ := q
      obtain ⟨hvac, hnew, hother, _, _, _⟩ := add_slot p.1 sock s' h hadd
      simp only [step, hadd]
      intro i item hit
      by_cases hi : i = h.idx
      · subst hi
        rw [hnew] at hit
        obtain rfl := Option.some_inj.mp hit
        rfl
      · rw [hother i hi] at hit
        exact hinv i item hit
  | removeOp h =>
    cases hrm : remove p.1 h with
    | none => simpa [step, hrm] using hinv
    | some q =>
      obtain ⟨v, s'⟩ := q
      obtain ⟨_, hvac, hother, _, _⟩ :=
        tryRemove_slot p.1 h v s' ((remove_eq_some_iff p.1 h v s').mp hrm)
      simp only [step, hrm]
      intro i item hit
      by_cases hi : i = h.idx
      · subst hi
        rw [hvac] at hit
        exact absurd hit (by simp)
      · rw [hother i hi] at hit
        exact hinv i item hit
  | tryRemoveOp h =>
    cases hrm : tryRemove p.1 h with
    | error e => simpa [step, hrm] using hinv
    | ok q =>
      obtain ⟨v, s'⟩ := q
      obtain ⟨_, hvac, hother, _, _⟩ := tryRemove_slot p.1 h v s' hrm
      simp only [step, hrm]
      intro i item hit
      by_cases hi : i = h.idx
      · subst hi
        rw [hvac] at hit
        exact absurd hit (by simp)
      · rw [hother i hi] at hit
        exact hinv i item hit
  | mutateOp h pay =>
    obtain ⟨hself, hother, _, _⟩ := mutatePayload_slot p.1 h pay
    simp only [step]
    intro i item hit
    by_cases hi : i = h.idx
    · subst hi
      rw [hself] at hit
      cases hold : slotInner p.1 h.idx with
      | none => rw [hold] at hit; exact absurd hit (by simp)
      | some old =>
        rw [hold] at hit
        simp only [Option.map_some'] at hit
        injection hit with hit2
        subst hit2
        exact hinv h.idx old hold
    · rw [hother i hi] at hit
      exact hinv i item hit

theorem foldl_step_handlesInv (ops : List Op) (p : SocketSet × List SocketHandle)
    (hinv : HandlesInv p.1 p.2) :
    HandlesInv (ops.foldl step p).1 (ops.foldl step p).2 := by
  induction ops generalizing p with
  | nil => exact hinv
  | cons op rest ih => exact ih (step p op) (step_handlesInv p op hinv)

theorem foldl_step_metaInv (ops : List Op) (p : SocketSet × List SocketHandle)
    (hinv : MetaInv p.1) : MetaInv (ops.foldl step p).1 := by
  induction ops generalizing p with
  | nil => exact hinv
  | cons op rest ih => exact ih (step p op) (step_metaInv p op hinv)

theorem run_handlesInv (init : SocketSet) (ops : List Op) (hinit : ValidInit init) :
    HandlesInv (run init ops).1 (run init ops).2 := by
  apply foldl_step_handlesInv
  rcases hinit with ⟨n, rfl⟩ | rfl
  · intro i item hit
    rw [slotInner_initFixed] at hit
    exact absurd hit (by simp)
  · intro i item hit
    rw [slotInner_initGrowable] at hit
    exact absurd hit (by simp)

theorem run_metaInv (init : SocketSet) (ops : List Op) (hinit : ValidInit init) :
    MetaInv (run init ops).1 := by
  apply foldl_step_metaInv
  rcases hinit with ⟨n, rfl⟩ | rfl
  · intro i item hit
    rw [slotInner_initFixed] at hit
    exact absurd hit (by simp)
  · intro i item hit
    rw [slotInner_initGrowable] at hit
    exact absurd hit (by simp)

theorem slotInner_lt (s : SocketSet) (i : Nat) (item : Item)
    (h : slotInner s i = some item) : i < s.sockets.length := by
  rcases hentry : s.sockets[i]? with _ | entry
  · rw [slotInner, hentry] at h
    simp at h
  · exact (List.getElem?_eq_some.mp hentry).1

/-- Scenario driver: perform the adds of a list of sockets in order,
collecting the returned handles; `none` as soon as one `add` panics. -/
def addAll (s : SocketSet) (socks : List Socket) : Option (SocketSet × List SocketHandle) :=
  match socks with
  | [] => some (s, [])
  | sock :: rest =>
    match add s sock with
    | none => none
    | some (s', h) =>
      match addAll s' rest with
      | none => none
      | some (s'', hs) => some (s'', h :: hs)

theorem addAll_fills (socks : List Socket) (s : SocketSet)
    (hb : s.backend = .borrowed) (hcount : countVacant s.sockets = socks.length) :
    ∃ s' handles, addAll s socks = some (s', handles) ∧
      handles.length = socks.length ∧
      s'.backend = .borrowed ∧ countVacant s'.sockets = 0 := by
  induction socks generalizing s with
  | nil => exact ⟨s, [], rfl, rfl, hb, hcount⟩
  | cons sock rest ih =>
    cases hf : findVacant s.sockets with
    | none =>
      exfalso
      have h0 := (countVacant_eq_zero_iff s.sockets).mpr hf
      rw [hcount] at h0
      simp at h0
    | some j =>
      have hadd := add_eq_of_findVacant_some s sock j hf
      obtain ⟨slot, hslot, hvac⟩ := findVacant_vacant _ _ hf
      have hfill := countVacant_set_fill s.sockets j slot hslot hvac ⟨⟨⟨j⟩⟩, sock⟩
      have hcount' :
          countVacant (({ s with
            sockets := s.sockets.set j ⟨some ⟨⟨⟨j⟩⟩, sock⟩⟩ } : SocketSet).sockets) =
            rest.length := by
        dsimp only
        rw [hcount] at hfill
        simp only [List.length_cons] at hfill
        omega
      obtain ⟨s'', handles, haa, hlen, hb'', hc''⟩ :=
        ih { s with sockets := s.sockets.set j ⟨some ⟨⟨⟨j⟩⟩, sock⟩⟩ } hb hcount'
      exact ⟨s'', ⟨j⟩ :: handles, by simp [addAll, hadd, haa], by simp [hlen], hb'', hc''⟩

/-! ## The claims -/

/-- C1 counterexample: over a fixed (borrowed) backend of capacity 2, the
first two `add`s succeed (returning handles `#0` and `#1`), and the third
`add` reaches the source's `panic!("adding a socket to a full SocketSet")`
branch — modelled as `none` — instead of returning a typed `Full` error
(the model's `add`, translated from the source, has no error channel at
all, and `SocketSetError` has no `Full` variant). -/
theorem c1_fixed_full_panics_counterexample :
    (addAll (initFixed 2) [⟨.tcp, 1⟩, ⟨.udp, 2⟩]).map
        (fun p => (p.2, add p.1 ⟨.icmp, 3⟩)) =
      some ([⟨0⟩, ⟨1⟩], none) := by decide

/-- C1 (amended): for a registry over a fixed (borrowed) backend in which
every slot is occupied, `add` panics (the `none` branch of the total
model) rather than returning a typed `Full` error — no such error variant
exists; in particular, after `N` successful `add`s into an all-vacant
fixed backend of capacity `N`, the `(N+1)`-th `add` panics. -/
theorem c1_fixed_full_panics (N : Nat) (socks : List Socket) (sock : Socket)
    (hlen : socks.length = N) :
    ∃ s' handles, addAll (initFixed N) socks = some (s', handles) ∧
      handles.length = N ∧ add s' sock = none := by
  obtain ⟨s', handles, haa, hl, hb, hc⟩ :=
    addAll_fills socks (initFixed N) rfl (by rw [countVacant_initFixed, hlen])
  refine ⟨s', handles, haa, by omega, ?_⟩
  exact (add_eq_none_iff s' sock).mpr ⟨(countVacant_eq_zero_iff _).mp hc, hb⟩

/-- Witness for C1 at `N = 2`. -/
theorem c1_fixed_full_panics_witness :
    ([(⟨.tcp, 1⟩ : Socket), ⟨.udp, 2⟩].length = 2) ∧
    ∃ s' handles, addAll (initFixed 2) [⟨.tcp, 1⟩, ⟨.udp, 2⟩] = some (s', handles) ∧
      handles.length = 2 ∧ add s' ⟨.icmp, 3⟩ = none :=
  ⟨by decide, c1_fixed_full_panics 2 [⟨.tcp, 1⟩, ⟨.udp, 2⟩] ⟨.icmp, 3⟩ (by decide)⟩

/-- C2: `try_get`, `try_get_mut` and `try_remove` resolve a handle through
the ordered chain — bounds check first (`OutOfBounds`), then occupancy
(`Vacant`), then, for the borrows, tag match (`WrongType`) — returning the
first applicable failure, and succeed otherwise. -/
theorem c2_check_chain (s : SocketSet) (T : SocketKind) (h : SocketHandle) :
    (s.sockets.length ≤ h.idx →
      tryGet s T h = .error .outOfBounds ∧ tryGetMut s T h = .error .outOfBounds ∧
        tryRemove s h = .error .outOfBounds) ∧
    (h.idx < s.sockets.length → slotInner s h.idx = none →
      tryGet s T h = .error .vacant ∧ tryGetMut s T h = .error .vacant ∧
        tryRemove s h = .error .vacant) ∧
    (∀ item, slotInner s h.idx = some item → item.socket.kind ≠ T →
      tryGet s T h = .error .wrongType ∧ tryGetMut s T h = .error .wrongType) ∧
    (∀ item, slotInner s h.idx = some item → item.socket.kind = T →
      tryGet s T h = .ok item.socket ∧ tryGetMut s T h = .ok item.socket) ∧
    (∀ item, slotInner s h.idx = some item →
      tryRemove s h = .ok (item.socket, { s with sockets := s.sockets.set h.idx ⟨none⟩ })) := by
  refine ⟨?_, ?_, ?_, ?_, ?_⟩
  · intro hge
    rw [tryGet_eq, tryGetMut_eq, tryGet_eq, tryRemove_eq, if_pos hge, if_pos hge]
    exact ⟨rfl, rfl, rfl⟩
  · intro hlt hvac
    rw [tryGet_eq, tryGetMut_eq, tryGet_eq, tryRemove_eq, if_neg (by omega),
      if_neg (by omega), hvac]
    exact ⟨rfl, rfl, rfl⟩
  · intro item hit hk
    have hlt := slotInner_lt s h.idx item hit
    rw [tryGet_eq, tryGetMut_eq, tryGet_eq, if_neg (by omega), hit]
    simp [hk]
  · intro item hit hk
    have hlt := slotInner_lt s h.idx item hit
    rw [tryGet_eq, tryGetMut_eq, tryGet_eq, if_neg (by omega), hit]
    simp [hk]
  · intro item hit
    have hlt := slotInner_lt s h.idx item hit
    rw [tryRemove_eq, if_neg (by omega), hit]

/-- Witness for C2: each branch of the chain at a concrete two-slot set
(slot 0 holds a TCP socket, slot 1 is vacant). -/
theorem c2_check_chain_witness :
    tryGet ⟨.borrowed, [⟨some ⟨⟨⟨0⟩⟩, ⟨.tcp, 5⟩⟩⟩, ⟨none⟩]⟩ .udp ⟨7⟩ = .error .outOfBounds ∧
    tryGet ⟨.borrowed, [⟨some ⟨⟨⟨0⟩⟩, ⟨.tcp, 5⟩⟩⟩, ⟨none⟩]⟩ .tcp ⟨1⟩ = .error .vacant ∧
    tryGet ⟨.borrowed, [⟨some ⟨⟨⟨0⟩⟩, ⟨.tcp, 5⟩⟩⟩, ⟨none⟩]⟩ .udp ⟨0⟩ = .error .wrongType ∧
    tryGet ⟨.borrowed, [⟨some ⟨⟨⟨0⟩⟩, ⟨.tcp, 5⟩⟩⟩, ⟨none⟩]⟩ .tcp ⟨0⟩ = .ok ⟨.tcp, 5⟩ ∧
    tryRemove ⟨.borrowed, [⟨some ⟨⟨⟨0⟩⟩, ⟨.tcp, 5⟩⟩⟩, ⟨none⟩]⟩ ⟨0⟩ =
      .ok (⟨.tcp, 5⟩, ⟨.borrowed, [⟨none⟩, ⟨none⟩]⟩) := by
  refine ⟨((c2_check_chain _ .udp ⟨7⟩).1 (by decide)).1,
    (((c2_check_chain _ .tcp ⟨1⟩).2.1 (by decide) (by decide))).1,
    (((c2_check_chain _ .udp ⟨0⟩).2.2.1 ⟨⟨⟨0⟩⟩, ⟨.tcp, 5⟩⟩ (by decide) (by decide))).1,
    (((c2_check_chain _ .tcp ⟨0⟩).2.2.2.1 ⟨⟨⟨0⟩⟩, ⟨.tcp, 5⟩⟩ (by decide) (by decide))).1,
    ?_⟩
  have := (c2_check_chain ⟨.borrowed, [⟨some ⟨⟨⟨0⟩⟩, ⟨.tcp, 5⟩⟩⟩, ⟨none⟩]⟩ .tcp ⟨0⟩).2.2.2.2
    ⟨⟨⟨0⟩⟩, ⟨.tcp, 5⟩⟩ (by decide)
  exact this

/-- C3: `add` occupies the first (smallest-index) vacant slot, leaves all
other slots unchanged and returns that index's handle; only when no
vacant slot exists and the backend is growable does it append exactly one
slot (length + 1) and occupy it, returning the new last index's handle; a
growable backend's `add` never fails. -/
theorem c3_add_first_vacant (s : SocketSet) (sock : Socket) :
    (∀ j, findVacant s.sockets = some j →
      add s sock = some ({ s with sockets := s.sockets.set j ⟨some ⟨⟨⟨j⟩⟩, sock⟩⟩ }, ⟨j⟩) ∧
      slotInner s j = none ∧
      (∀ k, k < j → (slotInner s k).isSome) ∧
      (∀ k, k ≠ j →
        slotInner { s with sockets := s.sockets.set j ⟨some ⟨⟨⟨j⟩⟩, sock⟩⟩ } k = slotInner s k) ∧
      (s.sockets.set j ⟨some ⟨⟨⟨j⟩⟩, sock⟩⟩).length = s.sockets.length) ∧
    (findVacant s.sockets = none → s.backend = .owned →
      add s sock =
        some ({ s with sockets := s.sockets ++ [⟨some ⟨⟨⟨s.sockets.length⟩⟩, sock⟩⟩] },
          ⟨s.sockets.length⟩) ∧
      (s.sockets ++ [(⟨some ⟨⟨⟨s.sockets.length⟩⟩, sock⟩⟩ : SocketStorage)]).length =
        s.sockets.length + 1) ∧
    (s.backend = .owned → add s sock ≠ none) := by
  refine ⟨?_, ?_, ?_⟩
  · intro j hf
    have hadd := add_eq_of_findVacant_some s sock j hf
    obtain ⟨hvac, hnew, hother, _, _, _⟩ := add_slot s sock _ _ hadd
    refine ⟨hadd, hvac, ?_, ?_, by simp⟩
    · intro k hk
      obtain ⟨slot, hslot, hocc⟩ := findVacant_min _ _ hf k hk
      simp [slotInner, hslot, hocc]
    · intro k hk
      exact hother k hk
  · intro hf hb
    exact ⟨add_eq_of_full_owned s sock hf hb, by simp⟩
  · intro hb hnone
    exact absurd ((add_eq_none_iff s sock).mp hnone).2 (by rw [hb]; simp)

/-- Witness for C3 at concrete sets: a borrowed set whose first vacant
slot is index 1, and a full one-slot owned set that must append. -/
theorem c3_add_first_vacant_witness :
    add ⟨.borrowed, [⟨some ⟨⟨⟨0⟩⟩, ⟨.tcp, 5⟩⟩⟩, ⟨none⟩]⟩ ⟨.udp, 9⟩ =
      some (⟨.borrowed, [⟨some ⟨⟨⟨0⟩⟩, ⟨.tcp, 5⟩⟩⟩, ⟨some ⟨⟨⟨1⟩⟩, ⟨.udp, 9⟩⟩⟩]⟩, ⟨1⟩) ∧
    add ⟨.owned, [⟨some ⟨⟨⟨0⟩⟩, ⟨.tcp, 5⟩⟩⟩]⟩ ⟨.udp, 9⟩ =
      some (⟨.owned, [⟨some ⟨⟨⟨0⟩⟩, ⟨.tcp, 5⟩⟩⟩, ⟨some ⟨⟨⟨1⟩⟩, ⟨.udp, 9⟩⟩⟩]⟩, ⟨1⟩) ∧
    add ⟨.owned, [⟨some ⟨⟨⟨0⟩⟩, ⟨.tcp, 5⟩⟩⟩]⟩ ⟨.udp, 9⟩ ≠ none := by
  refine ⟨?_, ?_, ?_⟩
  · exact ((c3_add_first_vacant ⟨.borrowed, [⟨some ⟨⟨⟨0⟩⟩, ⟨.tcp, 5⟩⟩⟩, ⟨none⟩]⟩ ⟨.udp, 9⟩).1
      1 (by decide)).1
  · exact (((c3_add_first_vacant ⟨.owned, [⟨some ⟨⟨⟨0⟩⟩, ⟨.tcp, 5⟩⟩⟩]⟩ ⟨.udp, 9⟩).2.1
      (by decide) rfl)).1
  · exact (c3_add_first_vacant ⟨.owned, [⟨some ⟨⟨⟨0⟩⟩, ⟨.tcp, 5⟩⟩⟩]⟩ ⟨.udp, 9⟩).2.2 rfl

/-- C4: when `try_remove h` succeeds, a subsequent `try_get h` (for every
requested type) yields `Vacant`; the removal returns the former
occupant's socket unmodified; and the backend length is unchanged. -/
theorem c4_remove_then_vacant (s : SocketSet) (h : SocketHandle) (v : Socket) (s' : SocketSet)
    (hrem : tryRemove s h = .ok (v, s')) :
    (∀ T, tryGet s' T h = .error .vacant) ∧
    (∃ item, slotInner s h.idx = some item ∧ v = item.socket) ∧
    s'.sockets.length = s.sockets.length := by
  obtain ⟨hex, hvac, hother, hb, hlen⟩ := tryRemove_slot s h v s' hrem
  refine ⟨?_, hex, hlen⟩
  intro T
  obtain ⟨item, hit, _⟩ := hex
  have hlt : h.idx < s.sockets.length := slotInner_lt s h.idx item hit
  rw [tryGet_eq, if_neg (by omega), hvac]

/-- Witness for C4 at a concrete removal. -/
theorem c4_remove_then_vacant_witness :
    tryRemove ⟨.borrowed, [⟨some ⟨⟨⟨0⟩⟩, ⟨.tcp, 5⟩⟩⟩, ⟨none⟩]⟩ ⟨0⟩ =
      .ok (⟨.tcp, 5⟩, ⟨.borrowed, [⟨none⟩, ⟨none⟩]⟩) ∧
    (∀ T, tryGet ⟨.borrowed, [⟨none⟩, ⟨none⟩]⟩ T ⟨0⟩ = .error .vacant) ∧
    (∃ item, slotInner ⟨.borrowed, [⟨some ⟨⟨⟨0⟩⟩, ⟨.tcp, 5⟩⟩⟩, ⟨none⟩]⟩ 0 = some item ∧
      (⟨.tcp, 5⟩ : Socket) = item.socket) ∧
    ([(⟨none⟩ : SocketStorage), ⟨none⟩].length =
      [(⟨some ⟨⟨⟨0⟩⟩, ⟨.tcp, 5⟩⟩⟩ : SocketStorage), ⟨none⟩].length) := by
  have hrem : tryRemove ⟨.borrowed, [⟨some ⟨⟨⟨0⟩⟩, ⟨.tcp, 5⟩⟩⟩, ⟨none⟩]⟩ ⟨0⟩ =
      .ok (⟨.tcp, 5⟩, ⟨.borrowed, [⟨none⟩, ⟨none⟩]⟩) := by rfl
  obtain ⟨h1, h2, h3⟩ := c4_remove_then_vacant _ ⟨0⟩ _ _ hrem
  exact ⟨hrem, h1, h2, h3⟩

/-- C5: `iter` (and `iter_mut`) yields exactly the occupied slots — each
exactly once, in strictly ascending index order — as `(handle, socket)`
pairs; removing an occupied slot shrinks the yield by exactly one. -/
theorem c5_iteration (s : SocketSet) :
    iterMut s = iter s ∧
    iter s = (occList s.sockets).map (fun p => (p.2.meta.handle, p.2.socket)) ∧
    (occList s.sockets).Pairwise (fun p q => p.1 < q.1) ∧
    (∀ i it, (i, it) ∈ occList s.sockets ↔ slotInner s i = some it) ∧
    (iter s).length = countOccupied s.sockets ∧
    (∀ h v s', tryRemove s h = .ok (v, s') → (iter s').length + 1 = (iter s).length) := by
  refine ⟨rfl, iter_eq_occList s, occList_pairwise s.sockets, ?_, iter_length s, ?_⟩
  · intro i it
    exact occList_mem_iff s.sockets i it
  · intro h v s' hrem
    rw [tryRemove_eq] at hrem
    rcases Nat.lt_or_ge h.idx s.sockets.length with hlt | hge
    · rw [if_neg (by omega)] at hrem
      cases hit : slotInner s h.idx with
      | none => rw [hit] at hrem; exact absurd hrem (by simp)
      | some item =>
        rw [hit] at hrem
        simp only [Except.ok.injEq] at hrem
        obtain ⟨h1, h2⟩ := Prod.ext_iff.mp hrem
        dsimp only at h1 h2
        subst h2
        obtain ⟨entry, hentry⟩ : ∃ e, s.sockets[h.idx]? = some e :=
          ⟨_, List.getElem?_eq_getElem hlt⟩
        have hinner : entry.inner = some item := by
          rw [slotInner, hentry] at hit
          simpa using hit
        rw [iter_length, iter_length]
        exact countOccupied_set_vacate s.sockets h.idx entry hentry item hinner
    · rw [if_pos hge] at hrem
      exact absurd hrem (by simp)

/-- Witness for C5's removal clause at a concrete set. -/
theorem c5_iteration_witness :
    iter ⟨.borrowed, [⟨some ⟨⟨⟨0⟩⟩, ⟨.tcp, 5⟩⟩⟩, ⟨none⟩, ⟨some ⟨⟨⟨2⟩⟩, ⟨.udp, 7⟩⟩⟩]⟩ =
      [(⟨0⟩, ⟨.tcp, 5⟩), (⟨2⟩, ⟨.udp, 7⟩)] ∧
    (iter ⟨.borrowed, [⟨none⟩, ⟨none⟩, ⟨some ⟨⟨⟨2⟩⟩, ⟨.udp, 7⟩⟩⟩]⟩).length + 1 =
      (iter ⟨.borrowed, [⟨some ⟨⟨⟨0⟩⟩, ⟨.tcp, 5⟩⟩⟩, ⟨none⟩, ⟨some ⟨⟨⟨2⟩⟩, ⟨.udp, 7⟩⟩⟩]⟩).length := by
  constructor
  · decide
  · exact (c5_iteration ⟨.borrowed, [⟨some ⟨⟨⟨0⟩⟩, ⟨.tcp, 5⟩⟩⟩, ⟨none⟩,
      ⟨some ⟨⟨⟨2⟩⟩, ⟨.udp, 7⟩⟩⟩]⟩).2.2.2.2.2 ⟨0⟩ ⟨.tcp, 5⟩
      ⟨.borrowed, [⟨none⟩, ⟨none⟩, ⟨some ⟨⟨⟨2⟩⟩, ⟨.udp, 7⟩⟩⟩]⟩ (by rfl)

/-- C6: no operation shrinks the backend: a successful `add` can only
keep the length (it must keep it for a borrowed backend), removal keeps
it, and in-place mutation through a `get_mut` borrow keeps it (the
lookups `get`/`get_mut`/`try_get`/`try_get_mut` and the iterators return
no modified set at all in this model, so they trivially preserve it). -/
theorem c6_length_monotone (s : SocketSet) :
    (∀ sock s' h, add s sock = some (s', h) →
      s.sockets.length ≤ s'.sockets.length ∧
      (s.backend = .borrowed → s'.sockets.length = s.sockets.length)) ∧
    (∀ h v s', tryRemove s h = .ok (v, s') → s'.sockets.length = s.sockets.length) ∧
    (∀ h v s', remove s h = some (v, s') → s'.sockets.length = s.sockets.length) ∧
    (∀ h p, (mutatePayload s h p).sockets.length = s.sockets.length) := by
  refine ⟨?_, ?_, ?_, ?_⟩
  · intro sock s' h hadd
    obtain ⟨_, _, _, _, hle, _⟩ := add_slot s sock s' h hadd
    refine ⟨hle, ?_⟩
    intro hb
    cases hf : findVacant s.sockets with
    | some j =>
      rw [add_eq_of_findVacant_some s sock j hf] at hadd
      obtain ⟨h1, _⟩ := Prod.ext_iff.mp (Option.some_inj.mp hadd)
      dsimp only at h1
      subst h1
      simp
    | none =>
      rw [(add_eq_none_iff s sock).mpr ⟨hf, hb⟩] at hadd
      exact absurd hadd (by simp)
  · intro h v s' hrem
    exact (tryRemove_slot s h v s' hrem).2.2.2.2
  · intro h v s' hrm
    exact (tryRemove_slot s h v s' ((remove_eq_some_iff s h v s').mp hrm)).2.2.2.2
  · intro h p
    exact (mutatePayload_slot s h p).2.2.2

/-- Witness for C6 at concrete operations. -/
theorem c6_length_monotone_witness :
    ([(⟨some ⟨⟨⟨0⟩⟩, ⟨.tcp, 5⟩⟩⟩ : SocketStorage), ⟨some ⟨⟨⟨1⟩⟩, ⟨.udp, 9⟩⟩⟩].length ≤
      [(⟨some ⟨⟨⟨0⟩⟩, ⟨.tcp, 5⟩⟩⟩ : SocketStorage), ⟨some ⟨⟨⟨1⟩⟩, ⟨.udp, 9⟩⟩⟩].length) ∧
    ([(⟨none⟩ : SocketStorage), ⟨none⟩].length =
      [(⟨some ⟨⟨⟨0⟩⟩, ⟨.tcp, 5⟩⟩⟩ : SocketStorage), ⟨none⟩].length) := by
  constructor
  · exact ((c6_length_monotone ⟨.borrowed, [⟨some ⟨⟨⟨0⟩⟩, ⟨.tcp, 5⟩⟩⟩, ⟨none⟩]⟩).1
      ⟨.udp, 9⟩ ⟨.borrowed, [⟨some ⟨⟨⟨0⟩⟩, ⟨.tcp, 5⟩⟩⟩, ⟨some ⟨⟨⟨1⟩⟩, ⟨.udp, 9⟩⟩⟩]⟩ ⟨1⟩
      (by decide)).1
  · exact (c6_length_monotone ⟨.borrowed, [⟨some ⟨⟨⟨0⟩⟩, ⟨.tcp, 5⟩⟩⟩, ⟨none⟩]⟩).2.1
      ⟨0⟩ ⟨.tcp, 5⟩ ⟨.borrowed, [⟨none⟩, ⟨none⟩]⟩ (by rfl)

/-- C7: handle equality is equality of the wrapped indices, the derived
order is the total order on indices, and the `Display` rendering of a
handle with index `i` is exactly `"#"` followed by the decimal
representation of `i`. -/
theorem c7_handle_eq_ord_display (a b c : SocketHandle) (i : Nat) :
    (socketHandleBeq a b = true ↔ a.idx = b.idx) ∧
    (a = b ↔ a.idx = b.idx) ∧
    (socketHandleLe a b = true ↔ a.idx ≤ b.idx) ∧
    (socketHandleLe a b = true ∨ socketHandleLe b a = true) ∧
    (socketHandleLe a b = true → socketHandleLe b a = true → a = b) ∧
    (socketHandleLe a b = true → socketHandleLe b c = true → socketHandleLe a c = true) ∧
    socketHandleDisplay ⟨i⟩ = "#" ++ Nat.repr i := by
  obtain ⟨ia⟩ := a
  obtain ⟨ib⟩ := b
  obtain ⟨ic⟩ := c
  refine ⟨?_, ?_, ?_, ?_, ?_, ?_, rfl⟩
  · simp [socketHandleBeq]
  · simp [SocketHandle.mk.injEq]
  · simp [socketHandleLe]
  · simp only [socketHandleLe, decide_eq_true_eq]
    omega
  · simp only [socketHandleLe, decide_eq_true_eq, SocketHandle.mk.injEq]
    omega
  · simp only [socketHandleLe, decide_eq_true_eq]
    omega

/-- Witness for C7 at concrete handles. -/
theorem c7_handle_eq_ord_display_witness :
    ((⟨3⟩ : SocketHandle) = ⟨3⟩ ↔ (3 : Nat) = 3) ∧
    ((⟨2⟩ : SocketHandle) = ⟨2⟩) ∧
    socketHandleLe ⟨1⟩ ⟨4⟩ = true ∧
    socketHandleDisplay ⟨42⟩ = "#" ++ Nat.repr 42 := by
  refine ⟨(c7_handle_eq_ord_display ⟨3⟩ ⟨3⟩ ⟨0⟩ 0).2.1, ?_, ?_, ?_⟩
  · exact (c7_handle_eq_ord_display ⟨2⟩ ⟨2⟩ ⟨0⟩ 0).2.2.2.2.1 (by decide) (by decide)
  · exact (c7_handle_eq_ord_display ⟨1⟩ ⟨2⟩ ⟨4⟩ 0).2.2.2.2.2.1 (by decide) (by decide)
  · exact (c7_handle_eq_ord_display ⟨0⟩ ⟨0⟩ ⟨0⟩ 42).2.2.2.2.2.2

/-- C8: over any reachable state of a registry instance (any trace of
operations from a valid initial state), a lookup with a handle that `add`
never returned yields `OutOfBounds` or `Vacant` — never success and never
`WrongType` — because every occupied slot's index is a handle `add`
returned. -/
theorem c8_foreign_handle (init : SocketSet) (ops : List Op) (T : SocketKind)
    (h : SocketHandle) (hinit : ValidInit init) (hnot : h ∉ (run init ops).2) :
    tryGet (run init ops).1 T h = .error .outOfBounds ∨
    tryGet (run init ops).1 T h = .error .vacant := by
  rcases Nat.lt_or_ge h.idx (run init ops).1.sockets.length with hlt | hge
  · cases hit : slotInner (run init ops).1 h.idx with
    | none =>
      right
      rw [tryGet_eq, if_neg (by omega), hit]
    | some item =>
      exfalso
      have hmem := run_handlesInv init ops hinit h.idx item hit
      obtain ⟨i⟩ := h
      exact hnot hmem
  · left
    rw [tryGet_eq, if_pos hge]

/-- Witness for C8: after one `add` into a fixed 2-slot registry, the
never-returned handles `#1` (in-range) and `#5` (out of range) yield
`Vacant` and `OutOfBounds` respectively. -/
theorem c8_foreign_handle_witness :
    ((⟨1⟩ : SocketHandle) ∉ (run (initFixed 2) [.addOp ⟨.tcp, 5⟩]).2) ∧
    (tryGet (run (initFixed 2) [.addOp ⟨.tcp, 5⟩]).1 .tcp ⟨1⟩ = .error .outOfBounds ∨
      tryGet (run (initFixed 2) [.addOp ⟨.tcp, 5⟩]).1 .tcp ⟨1⟩ = .error .vacant) ∧
    (tryGet (run (initFixed 2) [.addOp ⟨.tcp, 5⟩]).1 .tcp ⟨5⟩ = .error .outOfBounds ∨
      tryGet (run (initFixed 2) [.addOp ⟨.tcp, 5⟩]).1 .tcp ⟨5⟩ = .error .vacant) := by
  refine ⟨by decide, ?_, ?_⟩
  · exact c8_foreign_handle (initFixed 2) [.addOp ⟨.tcp, 5⟩] .tcp ⟨1⟩
      (Or.inl ⟨2, rfl⟩) (by decide)
  · exact c8_foreign_handle (initFixed 2) [.addOp ⟨.tcp, 5⟩] .tcp ⟨5⟩
      (Or.inl ⟨2, rfl⟩) (by decide)

/-- C9: in every reachable state, every occupied slot at index `i` stores
an item whose `meta.handle` is the handle of index `i`; consequently
every pair yielded by `iter` (or `iter_mut`, which yields the same pairs)
carries the handle of the slot its socket occupies — also after a slot
has been vacated and reoccupied. -/
theorem c9_meta_handle (init : SocketSet) (ops : List Op) (hinit : ValidInit init) :
    (∀ i item, slotInner (run init ops).1 i = some item →
      item.meta.handle = SocketHandle.mk i) ∧
    iter (run init ops).1 =
      (occList (run init ops).1.sockets).map (fun p => (SocketHandle.mk p.1, p.2.socket)) ∧
    iterMut (run init ops).1 = iter (run init ops).1 := by
  have hinv := run_metaInv init ops hinit
  refine ⟨hinv, ?_, rfl⟩
  rw [iter_eq_occList]
  apply List.map_congr_left
  intro p hp
  obtain ⟨i, it⟩ := p
  have hslot := (occList_mem_iff (run init ops).1.sockets i it).mp hp
  have : it.meta.handle = SocketHandle.mk i := hinv i it hslot
  simp [this]

/-- Witness for C9: trace `add A; add B; try_remove #0; add D` over a
fixed 2-slot registry — slot 0 is vacated and reoccupied, and `iter`
still pairs each socket with the handle of its own slot. -/
theorem c9_meta_handle_witness :
    (∀ i item,
      slotInner (run (initFixed 2)
        [.addOp ⟨.tcp, 1⟩, .addOp ⟨.udp, 2⟩, .tryRemoveOp ⟨0⟩, .addOp ⟨.raw, 4⟩]).1 i =
          some item →
      item.meta.handle = SocketHandle.mk i) ∧
    iter (run (initFixed 2)
        [.addOp ⟨.tcp, 1⟩, .addOp ⟨.udp, 2⟩, .tryRemoveOp ⟨0⟩, .addOp ⟨.raw, 4⟩]).1 =
      [(⟨0⟩, ⟨.raw, 4⟩), (⟨1⟩, ⟨.udp, 2⟩)] := by
  obtain ⟨h1, h2, _⟩ := c9_meta_handle (initFixed 2)
    [.addOp ⟨.tcp, 1⟩, .addOp ⟨.udp, 2⟩, .tryRemoveOp ⟨0⟩, .addOp ⟨.raw, 4⟩]
    (Or.inl ⟨2, rfl⟩)
  refine ⟨h1, ?_⟩
  rw [h2]
  rfl

/-- C10: the panicking and non-panicking APIs agree — `get` / `get_mut` /
`remove` (totalized with `none` as the panic branch) return a value
exactly when `try_get` / `try_get_mut` / `try_remove` return `Ok` of the
same value (including, for removal, the same resulting registry state),
and they hit the panic branch exactly when the `try_` variant returns an
error. -/
theorem c10_panicking_agrees (s : SocketSet) (T : SocketKind) (h : SocketHandle) :
    (∀ v, get s T h = some v ↔ tryGet s T h = .ok v) ∧
    (get s T h = none ↔ ∃ e, tryGet s T h = .error e) ∧
    (∀ v, getMut s T h = some v ↔ tryGetMut s T h = .ok v) ∧
    (getMut s T h = none ↔ ∃ e, tryGetMut s T h = .error e) ∧
    (∀ v s', remove s h = some (v, s') ↔ tryRemove s h = .ok (v, s')) ∧
    (remove s h = none ↔ ∃ e, tryRemove s h = .error e) := by
  refine ⟨?_, ?_, ?_, ?_, ?_, ?_⟩
  · intro v
    rw [get_eq_toOption]
    cases htr : tryGet s T h <;> simp [Except.toOption]
  · rw [get_eq_toOption]
    cases htr : tryGet s T h <;> simp [Except.toOption]
  · intro v
    rw [getMut_eq_toOption]
    cases htr : tryGetMut s T h <;> simp [Except.toOption]
  · rw [getMut_eq_toOption]
    cases htr : tryGetMut s T h <;> simp [Except.toOption]
  · intro v s'
    exact remove_eq_some_iff s h v s'
  · rw [remove_eq_toOption]
    cases htr : tryRemove s h <;> simp [Except.toOption]

end SocketSetModel
